import Mathlib

/-!
Verification of the Squell type-safe query layer (a TypeScript wrapper around
Sequelize).  The definitions below are a shallow embedding of the source files
`src/where.ts`, `src/attribute.ts` / `src/queryable.ts` and `src/query.ts`
(plus the historical variants of `where.ts` shipped in the repository).
JavaScript plain values are modelled by the inductive type `JSVal`; JavaScript
objects are ordered association lists of string keys, which matches the
insertion-order semantics of object literals, `Object.assign`, lodash
`extend` / `merge` and `Object.keys`.
-/

/-- A JavaScript value as it occurs in compiled Squell queries: `null`,
`undefined`, booleans, numbers, strings, plain objects, arrays, plus the
opaque Sequelize `col(...)` and `fn(...)` wrapper objects produced by
`compileRight`. -/
inductive JSVal : Type where
  | vNull : JSVal
  | vUndef : JSVal
  | vBool (b : Bool) : JSVal
  | vNum (n : Int) : JSVal
  | vStr (s : String) : JSVal
  | vObj (fields : List (String × JSVal)) : JSVal
  | vArr (elems : List JSVal) : JSVal
  | vCol (name : String) : JSVal
  | vFn (name : String) (args : List JSVal) : JSVal
deriving Repr

/-- JavaScript truthiness of a value (`!!v`): `null`, `undefined`, `false`,
`0` and the empty string are falsy, every object is truthy. -/
def jsTruthy : JSVal → Bool
  | JSVal.vNull => false
  | JSVal.vUndef => false
  | JSVal.vBool b => b
  | JSVal.vNum n => n != 0
  | JSVal.vStr s => s ≠ ""
  | JSVal.vObj _ => true
  | JSVal.vArr _ => true
  | JSVal.vCol _ => true
  | JSVal.vFn _ _ => true

/-- Look a key up in an object's field list (first occurrence wins, like a
JavaScript property read; `none` models an absent property). -/
def lookupField {α : Type} : List (String × α) → String → Option α
  | [], _ => none
  | (k₀, v₀) :: rest, k => if k₀ = k then some v₀ else lookupField rest k

/-- JavaScript property assignment `o[k] = v` on an ordered field list:
an existing key is overwritten in place, a new key is appended. -/
def setField {α : Type} : List (String × α) → String → α → List (String × α)
  | [], k, v => [(k, v)]
  | (k₀, v₀) :: rest, k, v =>
      if k₀ = k then (k₀, v) :: rest else (k₀, v₀) :: setField rest k v

/-- JavaScript `delete o[k]` on an ordered field list. -/
def removeField {α : Type} : List (String × α) → String → List (String × α)
  | [], _ => []
  | (k₀, v₀) :: rest, k =>
      if k₀ = k then removeField rest k else (k₀, v₀) :: removeField rest k

/-- `Object.assign(a, b)` / lodash `_.extend`: shallow copy of `b`'s fields
over `a`, last write wins. -/
def extendFields (a b : List (String × JSVal)) : List (String × JSVal) :=
  b.foldl (fun acc kv => setField acc kv.1 kv.2) a

mutual

/-- lodash `_.merge` on two values: plain objects are merged recursively,
any other source value replaces the destination value. -/
def mergeVal : JSVal → JSVal → JSVal
  | JSVal.vObj a, JSVal.vObj b => JSVal.vObj (mergeFields a b)
  | _, b => b
termination_by a b => (sizeOf b, 0)
decreasing_by all_goals (simp_wf; omega)

/-- Merge a single source field `(k, v)` into a destination field list:
a colliding key has its value merged recursively, a new key is appended. -/
def mergeUpdate : List (String × JSVal) → String → JSVal → List (String × JSVal)
  | [], k, v => [(k, v)]
  | (k₀, v₀) :: rest, k, v =>
      if k₀ = k then (k₀, mergeVal v₀ v) :: rest
      else (k₀, v₀) :: mergeUpdate rest k v
termination_by l _ v => (sizeOf v, 1 + sizeOf l)
decreasing_by all_goals (simp_wf; omega)

/-- lodash `_.merge` of a source field list (second argument) into a
destination field list (first argument). -/
def mergeFields : List (String × JSVal) → List (String × JSVal) → List (String × JSVal)
  | acc, [] => acc
  | acc, (k, v) :: rest => mergeFields (mergeUpdate acc k v) rest
termination_by _ l => (sizeOf l, 0)
decreasing_by all_goals (simp_wf; omega)

end

/-- The compiled representation of a `Where` (the `repr` field of the `Where`
class): a Sequelize `WhereOptions` object, i.e. an ordered map from keys to
values or operator maps.  `Where.compile()` returns it unchanged. -/
abbrev WhereRepr := List (String × JSVal)

/-- `Where.and` as implemented in `src/where.ts` of the named source tree:
`new Where(_.extend(\x7b\x7d, this.compile(), \x7b $and: other.compile() \x7d))`. -/
def whereAnd (w other : WhereRepr) : WhereRepr :=
  extendFields w [("$and", JSVal.vObj other)]

/-- `Where.and` as implemented in the repository's other `where.ts` variants
(`_.merge(\x7b\x7d, this.compile(), other.compile())`, and equivalently
`cloner.deep.merge`): a deep merge of the two compiled maps. -/
def whereAndMergeVariant (w other : WhereRepr) : WhereRepr :=
  mergeFields w other

/-- `Where.or`: `new Where(\x7b $or: [this.compile(), other.compile()] \x7d)`. -/
def whereOr (w other : WhereRepr) : WhereRepr :=
  [("$or", JSVal.vArr [JSVal.vObj w, JSVal.vObj other])]

/-- A `Queryable` expression node (`src/queryable.ts`; the older
`src/attribute.ts` has the same classes under the `Attribute` names):
model attribute, association (a subclass of attribute), raw column, SQL
function call, constant, and alias. -/
inductive QueryableE : Type where
  | attrQ (name : String) : QueryableE
  | assocQ (name : String) : QueryableE
  | colQ (name : String) : QueryableE
  | fnQ (name : String) (args : List QueryableE) : QueryableE
  | constQ (value : JSVal) : QueryableE
  | aliasQ (name : String) (aliased : QueryableE) : QueryableE
deriving Repr

mutual

/-- `compileRight`: the right-side (value position) compilation of a
queryable.  Attributes and columns wrap their name in `Sequelize.col`,
function calls become `Sequelize.fn` of the arguments' `compileRight`
results, constants compile to themselves and an alias compiles to the
`[compiled, name]` pair. -/
def QueryableE.compileRight : QueryableE → JSVal
  | QueryableE.attrQ n => JSVal.vCol n
  | QueryableE.assocQ n => JSVal.vCol n
  | QueryableE.colQ n => JSVal.vCol n
  | QueryableE.fnQ n args => JSVal.vFn n (compileRightList args)
  | QueryableE.constQ v => v
  | QueryableE.aliasQ n a => JSVal.vArr [a.compileRight, JSVal.vStr n]

/-- `compileRight` mapped over a function call's argument list. -/
def compileRightList : List QueryableE → List JSVal
  | [] => []
  | q :: rest => q.compileRight :: compileRightList rest

end

/-- `compileLeft`: the left-side (key position) compilation of a queryable.
Attributes and associations compile to their name and constants to their
value; columns, function calls and aliases throw a `SyntaxError` ("cannot be
used as a left operator in a Squell query"), modelled with `Except.error`. -/
def QueryableE.compileLeft : QueryableE → Except String JSVal
  | QueryableE.attrQ n => Except.ok (JSVal.vStr n)
  | QueryableE.assocQ n => Except.ok (JSVal.vStr n)
  | QueryableE.colQ _ =>
      Except.error "SyntaxError: a column queryable cannot be used as a left operator in a Squell query"
  | QueryableE.fnQ _ _ =>
      Except.error "SyntaxError: a function queryable cannot be used as a left operator in a Squell query"
  | QueryableE.constQ v => Except.ok v
  | QueryableE.aliasQ _ _ =>
      Except.error "SyntaxError: an aliased queryable cannot be used as a left operator in a Squell query"

/-- JavaScript stringification of a value used as an object key by
`_.fromPairs` (object keys are always strings). -/
def jsKeyString : JSVal → String
  | JSVal.vStr s => s
  | JSVal.vNum n => toString n
  | JSVal.vBool b => if b then "true" else "false"
  | JSVal.vNull => "null"
  | JSVal.vUndef => "undefined"
  | _ => "[object Object]"

/-- The right operand of a comparison: a constant or another queryable
(the source distinguishes them with `other instanceof Queryable`). -/
inductive Operand : Type where
  | constV (v : JSVal) : Operand
  | qy (q : QueryableE) : Operand

/-- `Queryable.build(other, operator)`: `value` is `other.compileRight()` for
a queryable operand, otherwise `other` itself; for the identity operator
`$eq` the predicate value is `value` directly, otherwise the single-key map
`\x7b operator: value \x7d`; the predicate key is `this.compileLeft()`. -/
def buildWhere (q : QueryableE) (other : Operand) (op : String) : Except String WhereRepr := do
  let value := match other with
    | Operand.constV v => v
    | Operand.qy o => o.compileRight
  let operation := if op = "$eq" then value else JSVal.vObj [(op, value)]
  let left ← q.compileLeft
  Except.ok [(jsKeyString left, operation)]

/-- `eq`: the identity comparison. -/
def QueryableE.eq (q : QueryableE) (other : Operand) : Except String WhereRepr :=
  buildWhere q other "$eq"

/-- `ne` comparison. -/
def QueryableE.ne (q : QueryableE) (other : Operand) : Except String WhereRepr :=
  buildWhere q other "$ne"

/-- `gt` comparison. -/
def QueryableE.gt (q : QueryableE) (other : Operand) : Except String WhereRepr :=
  buildWhere q other "$gt"

/-- `gte` comparison. -/
def QueryableE.gte (q : QueryableE) (other : Operand) : Except String WhereRepr :=
  buildWhere q other "$gte"

/-- `lt` comparison. -/
def QueryableE.lt (q : QueryableE) (other : Operand) : Except String WhereRepr :=
  buildWhere q other "$lt"

/-- `lte` comparison. -/
def QueryableE.lte (q : QueryableE) (other : Operand) : Except String WhereRepr :=
  buildWhere q other "$lte"

/-- `like` comparison. -/
def QueryableE.like (q : QueryableE) (other : Operand) : Except String WhereRepr :=
  buildWhere q other "$like"

/-- The operator strings of every non-identity comparison method of
`Queryable` (`ne, gt, gte, lt, lte, like, notLike, iLike, notILike, not, in,
notIn, between, notBetween, overlap, contains, contained, any, adjacent,
strictLeft, strictRight, noExtendRight, noExtendLeft`), each of which calls
`this.build(other, op)` with the listed operator. -/
def nonIdentityOps : List String :=
  ["$ne", "$gt", "$gte", "$lt", "$lte", "$like", "$notLike", "$iLike",
   "$notILike", "$not", "$in", "$notIn", "$between", "$notBetween",
   "$overlap", "$contains", "$contained", "$any", "$adjacent",
   "$strictLeft", "$strictRight", "$noExtendRight", "$noExtendLeft"]

/-- Sanity check: Scenario 1 of the spec, `attr('age').lt(50)`. -/
theorem scenario1_lt :
    QueryableE.lt (QueryableE.attrQ "age") (Operand.constV (JSVal.vNum 50))
      = Except.ok [("age", JSVal.vObj [("$lt", JSVal.vNum 50)])] := by
  rfl

/-- C1: the claim, checked on the current `src/where.ts`.  The two operands of
Scenario 2 compile to `\x7b age: 40 \x7d` and `\x7b name: \x7b $like: '%Bruce%' \x7d \x7d`;
`Where.and` as written (`_.extend` of the left map with a `$and` wrapper
around the right map) produces `\x7b age: 40, $and: \x7b name: \x7b $like: '%Bruce%' \x7d \x7d \x7d`,
which is not the deep merge `\x7b age: 40, name: \x7b $like: '%Bruce%' \x7d \x7d` the claim
(and the repository's own `Where#and` test expectation) states — the `$and`
key is extra and `name` is not a top-level key.  The historical `_.merge`
variants of `where.ts` do produce exactly the claimed map. -/
theorem c1_where_and_divergence :
    QueryableE.eq (QueryableE.attrQ "age") (Operand.constV (JSVal.vNum 40))
        = Except.ok [("age", JSVal.vNum 40)]
    ∧ QueryableE.like (QueryableE.attrQ "name") (Operand.constV (JSVal.vStr "%Bruce%"))
        = Except.ok [("name", JSVal.vObj [("$like", JSVal.vStr "%Bruce%")])]
    ∧ whereAnd [("age", JSVal.vNum 40)] [("name", JSVal.vObj [("$like", JSVal.vStr "%Bruce%")])]
        = [("age", JSVal.vNum 40),
           ("$and", JSVal.vObj [("name", JSVal.vObj [("$like", JSVal.vStr "%Bruce%")])])]
    ∧ whereAnd [("age", JSVal.vNum 40)] [("name", JSVal.vObj [("$like", JSVal.vStr "%Bruce%")])]
        ≠ [("age", JSVal.vNum 40), ("name", JSVal.vObj [("$like", JSVal.vStr "%Bruce%")])]
    ∧ whereAndMergeVariant [("age", JSVal.vNum 40)]
          [("name", JSVal.vObj [("$like", JSVal.vStr "%Bruce%")])]
        = [("age", JSVal.vNum 40), ("name", JSVal.vObj [("$like", JSVal.vStr "%Bruce%")])] := by
  refine ⟨rfl, rfl, rfl, ?_, ?_⟩
  · intro h
    simp [whereAnd, extendFields, setField] at h
  · simp [whereAndMergeVariant, mergeFields, mergeUpdate, mergeVal]

/-- C7: `a.eq(v)` compiles to the single-key map `\x7b n: v \x7d`; for every
operator string other than the identity `$eq` — in particular every member of
`nonIdentityOps`, the operator list of the non-identity comparison methods —
`build` compiles to `\x7b n: \x7b op: v \x7d \x7d`; and a queryable right operand is
compiled with `compileRight` (for an attribute, `Sequelize.col`). -/
theorem c7_build_compilation (n m : String) (v : JSVal) (op : String) (hop : op ≠ "$eq") :
    QueryableE.eq (QueryableE.attrQ n) (Operand.constV v) = Except.ok [(n, v)]
    ∧ buildWhere (QueryableE.attrQ n) (Operand.constV v) op
        = Except.ok [(n, JSVal.vObj [(op, v)])]
    ∧ QueryableE.eq (QueryableE.attrQ n) (Operand.qy (QueryableE.attrQ m))
        = Except.ok [(n, JSVal.vCol m)]
    ∧ ∀ o ∈ nonIdentityOps, o ≠ "$eq" := by
  refine ⟨rfl, ?_, rfl, ?_⟩
  · simp only [buildWhere, QueryableE.compileLeft, if_neg hop, jsKeyString,
      Except.bind, Except.pure]
    rfl
  · intro o ho
    fin_cases ho <;> decide

/-- C7 witness: the theorem applied at `n = "age"`, `op = "$lt"`,
`v = 50`. -/
theorem c7_build_compilation_witness :
    buildWhere (QueryableE.attrQ "age") (Operand.constV (JSVal.vNum 50)) "$lt"
      = Except.ok [("age", JSVal.vObj [("$lt", JSVal.vNum 50)])] :=
  (c7_build_compilation "age" "name" (JSVal.vNum 50) "$lt" (by decide)).2.1

/-- An `IncludeOptions` record (`src/query.ts`): target model (identified by
name), association alias (`as`), optional nested sub-query, and the optional
`required` / `associateOnly` flags.  `Option` models JavaScript field
presence: `none` is an absent (or `undefined`) field, and for `query`,
`none` also models the explicit `query: null` reset, which behaves
identically under the `if (query)` truthiness tests of the source. -/
structure IncludeSpecF (Q : Type) where
  modelName : String
  asName : String
  query : Option Q
  required : Option Bool
  associateOnly : Option Bool

/-- An element of the `attrs` option list: a plain attribute queryable, or a
`[FunctionQueryable, AttributeQueryable]`-style array (modelled as a list,
since the source only tests `_.isArray`). -/
inductive AttrSpec : Type where
  | single (q : QueryableE) : AttrSpec
  | several (qs : List QueryableE) : AttrSpec

/-- An element of an ordering array: either a raw string (the Sequelize
string-ordering escape tolerated by `compileOrderings`) or a queryable
(`ordering[0]`) / order-direction string position. -/
inductive OrderElem : Type where
  | strO (s : String) : OrderElem
  | qO (q : QueryableE) : OrderElem

/-- An ordering as stored in `options.orderings`: an array.  The typed
builder produces `[queryable, direction]` pairs; raw Sequelize orderings are
plain string arrays. -/
abbrev OrderingSpec := List OrderElem

/-- The `QueryOptions` record of a `Query` (`src/query.ts`).  The constructor
defaults only `wheres`, `skipped` and `taken`, so `attrs`, `includes`,
`orderings` and `groupBys` may be absent (`none`), which the source tests
with `if (this.options.X)` / `X || []`. -/
inductive QueryOptions : Type where
  | mk (wheres : List WhereRepr)
       (attrs : Option (List AttrSpec))
       (includes : Option (List (IncludeSpecF QueryOptions)))
       (orderings : Option (List OrderingSpec))
       (groupBys : Option (List QueryableE))
       (skipped : Int)
       (taken : Int) : QueryOptions

/-- An include record of a query. -/
abbrev IncludeSpec := IncludeSpecF QueryOptions

/-- The `wheres` field. -/
def QueryOptions.wheres : QueryOptions → List WhereRepr
  | QueryOptions.mk w _ _ _ _ _ _ => w

/-- The `attrs` field. -/
def QueryOptions.attrs : QueryOptions → Option (List AttrSpec)
  | QueryOptions.mk _ a _ _ _ _ _ => a

/-- The `includes` field. -/
def QueryOptions.includes : QueryOptions → Option (List IncludeSpec)
  | QueryOptions.mk _ _ i _ _ _ _ => i

/-- The `orderings` field. -/
def QueryOptions.orderings : QueryOptions → Option (List OrderingSpec)
  | QueryOptions.mk _ _ _ o _ _ _ => o

/-- The `groupBys` field. -/
def QueryOptions.groupBys : QueryOptions → Option (List QueryableE)
  | QueryOptions.mk _ _ _ _ g _ _ => g

/-- The `skipped` field. -/
def QueryOptions.skipped : QueryOptions → Int
  | QueryOptions.mk _ _ _ _ _ s _ => s

/-- The `taken` field. -/
def QueryOptions.taken : QueryOptions → Int
  | QueryOptions.mk _ _ _ _ _ _ t => t

/-- The options record a fresh `Query` starts with
(`\x7b wheres: [], skipped: 0, taken: 0 \x7d`). -/
def emptyQueryOptions : QueryOptions :=
  QueryOptions.mk [] none none none none 0 0

/-- The distinct keys of a list in order of first occurrence (the key order
produced by lodash `_.groupBy` over string keys). -/
def dedupKeysAux : List String → List String → List String
  | _, [] => []
  | seen, k :: rest =>
      if k ∈ seen then dedupKeysAux seen rest
      else k :: dedupKeysAux (k :: seen) rest

/-- lodash `_.chain(includes).groupBy(_ => _.as)`: the groups of includes
sharing an alias, in order of first occurrence, each group in list order. -/
def groupByAs (l : List IncludeSpec) : List (List IncludeSpec) :=
  (dedupKeysAux [] (l.map IncludeSpecF.asName)).map
    (fun a => l.filter (fun inc => inc.asName == a))

mutual

/-- `Query.merge(other)` (`src/query.ts` lines 299-321) on the options
records, with a fuel bound on the recursion depth (the source recurses
through nested sub-queries).  `wheres`, `attrs`, `orderings` and `includes`
are concatenations; `skipped`, `taken` and (via the object spread)
`groupBys` take `other`'s value when present; includes are then grouped by
alias and each group is collapsed by `mergeGroup`.  A JavaScript `TypeError`
thrown while collapsing a group is modelled with `Except.error`. -/
def mergeQueryOptions : Nat → QueryOptions → QueryOptions → Except String QueryOptions
  | 0, _, _ => Except.error "RangeError: merge recursion exceeded the modelled fuel bound"
  | fuel + 1, a, b => do
      let includesCat := a.includes.getD [] ++ b.includes.getD []
      let merged ← (groupByAs includesCat).mapM (mergeGroup fuel)
      Except.ok (QueryOptions.mk
        (a.wheres ++ b.wheres)
        (some (a.attrs.getD [] ++ b.attrs.getD []))
        (some merged)
        (some (a.orderings.getD [] ++ b.orderings.getD []))
        (b.groupBys <|> a.groupBys)
        b.skipped b.taken)
termination_by fuel _ _ => (fuel, 0)
decreasing_by all_goals (simp_wf; omega)

/-- One group of the include union:
`(_ : IncludeOptions[]) => (\x7b ..._[0], ..._[1], query: _[0].query.merge(_[1].query) \x7d)`.
For a singleton group `_[1]` is `undefined`, so reading `_[1].query` throws a
`TypeError`; when `_[0].query` is `null`, calling `.merge` on it throws; and
when `_[1].query` is `null`, `merge` dereferences `null.options` and throws.
Elements past the second are discarded by the source expression. -/
def mergeGroup : Nat → List IncludeSpec → Except String IncludeSpec
  | _, [] =>
      Except.error "TypeError: Cannot read properties of undefined (reading 'query')"
  | _, [_] =>
      Except.error "TypeError: Cannot read properties of undefined (reading 'query')"
  | fuel, g0 :: g1 :: _ =>
      match g0.query with
      | none => Except.error "TypeError: Cannot read properties of null (reading 'merge')"
      | some q0 =>
        match g1.query with
        | none => Except.error "TypeError: Cannot read properties of null (reading 'options')"
        | some q1 => do
            let mq ← mergeQueryOptions fuel q0 q1
            Except.ok { modelName := g1.modelName, asName := g1.asName,
                        query := some mq,
                        required := g1.required <|> g0.required,
                        associateOnly := g1.associateOnly <|> g0.associateOnly }
termination_by fuel _ => (fuel, 1)
decreasing_by all_goals (simp_wf; omega)

end

/-- The caller-supplied `Partial<IncludeOptions>` override object of an
`include` call; every field may be absent. -/
structure ExtraInclude where
  modelName : Option String := none
  asName : Option String := none
  required : Option Bool := none
  associateOnly : Option Bool := none

/-- `Query.include` (`src/query.ts` lines 364-410), acting on the include
list.  `assocKey` is the selector's `compileLeft()` result and
`aliasOverride` the `as` value from the association metadata, when any.  The
spec literal `\x7b model, as, associateOnly: true, ...existingInclude,
...extraOptions, query: null \x7d` is built with JavaScript spread semantics
(later present fields win; the trailing `query: null` always resets the
sub-query), then the optional new sub-query is attached, then a pre-existing
sub-query for the alias is recursively merged in, and finally the existing
spec is removed from the list and the new spec appended. -/
def includeStep (fuel : Nat) (includes : List IncludeSpec) (modelName assocKey : String)
    (aliasOverride : Option String) (extra : ExtraInclude) (newQuery : Option QueryOptions) :
    Except String (List IncludeSpec) := do
  let aliasKey := match aliasOverride with
    | some a => a
    | none => assocKey
  let idx? := includes.findIdx? (fun inc => inc.asName == aliasKey)
  let existing? := idx?.bind (fun i => includes.get? i)
  let spec0 : IncludeSpec := match existing? with
    | some ex =>
        { modelName := ex.modelName, asName := ex.asName,
          query := none,
          required := (extra.required <|> ex.required),
          associateOnly := (extra.associateOnly <|> (ex.associateOnly <|> some true)) }
    | none =>
        { modelName := extra.modelName.getD modelName,
          asName := extra.asName.getD aliasKey,
          query := none,
          required := extra.required,
          associateOnly := extra.associateOnly <|> some true }
  let spec1 : IncludeSpec := match extra.modelName, extra.asName, existing? with
    | _, _, none => spec0
    | mn, an, some ex =>
        { spec0 with modelName := mn.getD ex.modelName, asName := an.getD ex.asName }
  let spec2 : IncludeSpec := match newQuery with
    | some q => { spec1 with query := some q }
    | none => spec1
  let spec3 : IncludeSpec ←
    match existing? with
    | some ex =>
        match ex.query with
        | some exq =>
            match spec2.query with
            | some nq => do
                let m ← mergeQueryOptions fuel exq nq
                Except.ok { spec2 with query := some m }
            | none => Except.ok { spec2 with query := some exq }
        | none => Except.ok spec2
    | none => Except.ok spec2
  let remaining := match idx? with
    | some i => includes.take i ++ includes.drop (i + 1)
    | none => includes
  Except.ok (remaining ++ [spec3])

/-- Whether an ordering element is a plain string (`typeof i === 'string'`). -/
def orderElemIsStr : OrderElem → Bool
  | OrderElem.strO _ => true
  | OrderElem.qO _ => false

/-- An ordering element as the value it passes through unchanged. -/
def orderElemJs : OrderElem → JSVal
  | OrderElem.strO s => JSVal.vStr s
  | OrderElem.qO q => q.compileRight

/-- JavaScript `.toString()` of an ordering element (`ordering[1]`): strings
stringify to themselves, class instances to `[object Object]`. -/
def orderElemToString : OrderElem → String
  | OrderElem.strO s => s
  | OrderElem.qO _ => "[object Object]"

/-- `Query.compileOrderings` on one ordering (`src/query.ts` lines
1212-1218): an all-string array of length above two is passed through
unchanged (the Sequelize string-ordering escape the source marks FIX ME);
every other ordering becomes the flat pair
`[ordering[0].compileLeft(), ordering[1].toString()]`. -/
def compileOrdering (ord : OrderingSpec) : Except String JSVal :=
  if 2 < ord.length && ord.all orderElemIsStr then
    Except.ok (JSVal.vArr (ord.map orderElemJs))
  else do
    let left ← match ord.get? 0 with
      | some (OrderElem.qO q) => q.compileLeft
      | some (OrderElem.strO _) =>
          Except.error "TypeError: ordering[0].compileLeft is not a function"
      | none =>
          Except.error "TypeError: Cannot read properties of undefined (reading 'compileLeft')"
    let dir ← match ord.get? 1 with
      | some e => Except.ok (orderElemToString e)
      | none =>
          Except.error "TypeError: Cannot read properties of undefined (reading 'toString')"
    Except.ok (JSVal.vArr [left, JSVal.vStr dir])

/-- `compileOrderings` over the whole ordering list. -/
def compileOrderingsL (l : List OrderingSpec) : Except String (List JSVal) :=
  l.mapM compileOrdering

/-- One element of a `[FunctionQueryable, AttributeQueryable]` attribute
pair: `x instanceof AttributeQueryable ? x.compileLeft() : x.compileRight()`
(attribute and association queryables are the `AttributeQueryable`
instances, and their `compileLeft` is their name). -/
def attrElemCompile : QueryableE → JSVal
  | QueryableE.attrQ n => JSVal.vStr n
  | QueryableE.assocQ n => JSVal.vStr n
  | q => q.compileRight

/-- `Query.compileAttributes`: each single queryable compiles with
`compileLeft` (which may throw), each array element-wise with
`attrElemCompile`. -/
def compileAttributesL (l : List AttrSpec) : Except String (List JSVal) :=
  l.mapM (fun a =>
    match a with
    | AttrSpec.single q => q.compileLeft
    | AttrSpec.several qs => Except.ok (JSVal.vArr (qs.map attrElemCompile)))

/-- `Query.compileGroupBys`: `groupBys.map(w => w.compileRight())`. -/
def compileGroupBysL (l : List QueryableE) : List JSVal :=
  l.map QueryableE.compileRight

/-- `Query.compileWheres`:
`Object.assign(\x7b\x7d, ...this.options.wheres.map(w => w.compile()))`. -/
def compileWheres (o : QueryOptions) : WhereRepr :=
  o.wheres.foldl extendFields []

/-- The compiled Sequelize `FindOptions` produced by
`Query.compileFindOptions`: `where` always, the other entries only when the
corresponding option list is present (`attributes`/`include`/`order`/
`group`), and `offset`/`limit` only when positive. -/
structure FindOpts where
  whereR : WhereRepr
  attributes : Option (List JSVal)
  includeO : Option (List JSVal)
  order : Option (List JSVal)
  group : Option (List JSVal)
  offset : Option Int
  limit : Option Int

/-- A `Bool` option as the JavaScript value of an object field that is
always written (`required: include.required` writes `undefined` when the
flag was never set). -/
def optBoolVal : Option Bool → JSVal
  | some b => JSVal.vBool b
  | none => JSVal.vUndef

mutual

/-- `Query.compileFindOptions` (`src/query.ts` lines 1166-1177) with a fuel
bound on the recursion through nested includes. -/
def compileFindOptionsF : Nat → QueryOptions → Except String FindOpts
  | 0, _ => Except.error "RangeError: compile recursion exceeded the modelled fuel bound"
  | fuel + 1, o => do
      let attributes ← match o.attrs with
        | some l => do
            let a ← compileAttributesL l
            Except.ok (some a)
        | none => Except.ok none
      let includeO ← match o.includes with
        | some l => do
            let c ← compileIncludeList fuel l none
            Except.ok (some c)
        | none => Except.ok none
      let order ← match o.orderings with
        | some l => do
            let os ← compileOrderingsL l
            Except.ok (some os)
        | none => Except.ok none
      let group := match o.groupBys with
        | some l => some (compileGroupBysL l)
        | none => none
      Except.ok
        { whereR := compileWheres o,
          attributes := attributes, includeO := includeO, order := order, group := group,
          offset := if 0 < o.skipped then some o.skipped else none,
          limit := if 0 < o.taken then some o.taken else none }
termination_by fuel _ => (fuel, 0)
decreasing_by all_goals (simp_wf; omega)

/-- `Query.compileIncludes` (`src/query.ts` lines 1226-1237): each include
becomes `\x7b model, as, required, ..._.pick(findOpts, ['where', 'attributes',
'include']), ...overrides \x7d` where `findOpts` is the recursively compiled
nested query (or `null`, picked as nothing); the optional `overrides`
argument forces `required`. -/
def compileIncludeList : Nat → List IncludeSpec → Option Bool → Except String (List JSVal)
  | _, [], _ => Except.ok []
  | fuel, inc :: rest, requiredOverride => do
      let findOpts? ← match inc.query with
        | some q => do
            let fo ← compileFindOptionsF fuel q
            Except.ok (some fo)
        | none => Except.ok none
      let base := [("model", JSVal.vStr inc.modelName), ("as", JSVal.vStr inc.asName),
                   ("required", optBoolVal inc.required)]
      let picked := match findOpts? with
        | some fo =>
            [("where", JSVal.vObj fo.whereR)]
            ++ (match fo.attributes with
                | some a => [("attributes", JSVal.vArr a)]
                | none => [])
            ++ (match fo.includeO with
                | some l => [("include", JSVal.vArr l)]
                | none => [])
        | none => []
      let ov := match requiredOverride with
        | some b => [("required", JSVal.vBool b)]
        | none => []
      let compiled := JSVal.vObj (extendFields (extendFields base picked) ov)
      let restCompiled ← compileIncludeList fuel rest requiredOverride
      Except.ok (compiled :: restCompiled)
termination_by fuel l _ => (fuel, 1 + l.length)
decreasing_by all_goals (simp_wf; omega)

end

/-- Whether a value is a `\x7b model, as \x7d` hop object. -/
def isHopObj : JSVal → Bool
  | JSVal.vObj fs => (lookupField fs "model").isSome && (lookupField fs "as").isSome
  | _ => false

/-- Modelled from the spec: the join-path shape the spec requires of
`compileOrderings` for nested association paths — "a queryable referencing a
nested association path must be rewritten as a join-path array (list of
`\x7b model, as \x7d` hops terminating in the leaf attribute name) rather than a
flat column reference".  The repository's CHANGELOG (top 0.6.1 entry, "map
the path into a fully-disambiguous model path") documents this behaviour,
but no implementation of it exists anywhere in the source tree.  The
predicate recognises an ordering entry of the required shape. -/
def specJoinPathEntry : JSVal → Bool
  | JSVal.vArr elems =>
      2 ≤ elems.length
      && elems.dropLast.all isHopObj
      && (match elems.getLast? with
          | some (JSVal.vStr _) => true
          | _ => false)
  | _ => false

/-- C8: the claim requires an ordering on the nested association path
`mentor.name` to compile to a join-path array of `\x7b model, as \x7d` hops.  The
`compileOrderings` in the source instead emits the flat column reference
`['mentor.name', 'ASC']` — no element of the emitted entry is a hop object
at all — contradicting the claim, the spec sentence and the repository's own
CHANGELOG entry for 0.6.1. -/
theorem c8_orderings_emit_flat_reference :
    compileOrderingsL [[OrderElem.qO (QueryableE.attrQ "mentor.name"), OrderElem.strO "ASC"]]
      = Except.ok [JSVal.vArr [JSVal.vStr "mentor.name", JSVal.vStr "ASC"]]
    ∧ specJoinPathEntry (JSVal.vArr [JSVal.vStr "mentor.name", JSVal.vStr "ASC"]) = false
    ∧ ([JSVal.vStr "mentor.name", JSVal.vStr "ASC"].all fun h => !(isHopObj h)) = true :=
  ⟨rfl, rfl, rfl⟩

/-- The include record produced by `q.include(Actor, m => m.mentor)` — alias
`mentor`, no sub-query (`query: null`), default `associateOnly: true`. -/
def mentorInclude : IncludeSpec :=
  { modelName := "Actor", asName := "mentor", query := none,
    required := none, associateOnly := some true }

/-- The include record produced by `q.include(Actor, m => m.mentee)`. -/
def menteeInclude : IncludeSpec :=
  { modelName := "Actor", asName := "mentee", query := none,
    required := none, associateOnly := some true }

/-- The options of a query eagerly loading only the `mentor` association. -/
def c2mergeLeft : QueryOptions :=
  QueryOptions.mk [] none (some [mentorInclude]) none none 0 0

/-- The options of a query eagerly loading only the `mentee` association. -/
def c2mergeRight : QueryOptions :=
  QueryOptions.mk [] none (some [menteeInclude]) none none 0 0

/-- C2: the claim (and the source's own "Unionise includes and recursively
merge their subqueries" comment) states that merging two queries with
disjoint include alias sets yields the union of both alias sets.  The code
instead throws: the include union maps every alias group to
`\x7b ..._[0], ..._[1], query: _[0].query.merge(_[1].query) \x7d`, and for an
alias present in only one of the two queries the group is a singleton, so
`_[1]` is `undefined` and reading `_[1].query` raises a `TypeError` (a
`null` sub-query — the default produced by `include` without a sub-query —
likewise throws).  Merging a query that includes only `mentor` with one that
includes only `mentee` therefore throws instead of producing any merged
query. -/
theorem c2_merge_disjoint_aliases_throws :
    mergeQueryOptions 9 c2mergeLeft c2mergeRight
      = Except.error "TypeError: Cannot read properties of undefined (reading 'query')"
    ∧ ∀ o, mergeQueryOptions 9 c2mergeLeft c2mergeRight ≠ Except.ok o := by
  have h : mergeQueryOptions 9 c2mergeLeft c2mergeRight
      = Except.error "TypeError: Cannot read properties of undefined (reading 'query')" := by
    simp [mergeQueryOptions, mergeGroup, groupByAs, dedupKeysAux, c2mergeLeft, c2mergeRight,
      mentorInclude, menteeInclude, QueryOptions.includes, QueryOptions.wheres,
      QueryOptions.attrs, QueryOptions.orderings, QueryOptions.groupBys,
      QueryOptions.skipped, QueryOptions.taken, List.mapM, List.mapM.loop,
      Bind.bind, Except.bind]
  refine ⟨h, fun o hc => ?_⟩
  rw [h] at hc
  exact Except.noConfusion hc

/-- Sequelize association kinds (`internalAssoc.associationType`). -/
inductive AssocType : Type where
  | belongsTo : AssocType
  | hasOne : AssocType
  | hasMany : AssocType
  | belongsToMany : AssocType
deriving DecidableEq, Repr

/-- Whether `Query.associate` runs for a `create` or an `update`. -/
inductive OpKind : Type where
  | createOp : OpKind
  | updateOp : OpKind
deriving DecidableEq, Repr

/-- The per-value decision of the `coerceSave` closure: cascade-save the
coerced nested instance, or only attach it (no nested write). -/
inductive SaveDecision : Type where
  | cascadeSave : SaveDecision
  | attachOnly : SaveDecision
deriving DecidableEq, Repr

/-- JavaScript property read `values[k]`: a missing key, or a read on a
non-object, yields `undefined`. -/
def jsIndex : JSVal → String → JSVal
  | JSVal.vObj fs, k => (lookupField fs k).getD JSVal.vUndef
  | _, _ => JSVal.vUndef

/-- `Object.keys(values)` for a plain object (empty for primitives). -/
def jsObjKeys : JSVal → List String
  | JSVal.vObj fs => fs.map Prod.fst
  | _ => []

/-- The save-or-attach decision inside `coerceSave` (`src/query.ts` lines
839-857): `isNewRecord = !values[internalAssocPrimary]` (the JavaScript
falsiness test the source uses for "the primary key is unset"), and the
instance is saved when it is a new record, or when the include is not
attach-only and `Object.keys(values)` has at least one key besides the
association's primary key. -/
def coerceSaveDecision (pk : String) (associateOnly : Bool) (values : JSVal) : SaveDecision :=
  let isNewRecord := ! jsTruthy (jsIndex values pk)
  let keys := jsObjKeys values
  if isNewRecord || (!associateOnly && decide (0 < (keys.filter (fun k => k != pk)).length))
  then SaveDecision.cascadeSave
  else SaveDecision.attachOnly

/-- The abstracted per-include context `Query.associate` works with: the
include's alias and attach-only flag, the Sequelize association record
(presence, kind, belongs-to identifier), the resolvability of the ModelSafe
target model, the nested model's primary-key name, the presence of the
`set<Alias>` method, and the data used by the create-time foreign-key
pre-stamp (the resolved target foreign-key name, the optional target
association alias deleted from each value, and the parent instance's primary
key value). -/
structure AssocCtx where
  asName : String
  associateOnly : Bool
  internalAssocPresent : Bool
  assocModelPresent : Bool
  assocType : AssocType
  identifier : String
  primaryKey : String
  setterPresent : Bool
  stampKey : String
  deleteKey : Option String
  parentPrimary : JSVal

/-- An observable action `Query.associate` performs on one include: calling
the association setter with `null` (deassociation), or calling it with the
coerced value(s), each carrying its save-or-attach decision. -/
inductive AssocAction : Type where
  | setNullAction : AssocAction
  | setAction (items : List (JSVal × SaveDecision)) : AssocAction

/-- The create-time foreign-key pre-stamp on one nested value
(`obj[targetAssocForeignKey] = internalInstance.get(primary)`, then
`delete obj[targetAssocOptions.as]` when a target association was declared).
`getAttributeOptions` spreads possibly-missing metadata into a fresh object,
which is always truthy, so the assignment is unconditional; in strict mode
(ES modules) assigning a property of `null`, `undefined` or another
primitive throws a `TypeError`.  Setting a property on a non-plain object
(e.g. an array) succeeds but is not observable in this model. -/
def stampOne (ctx : AssocCtx) : JSVal → Except String JSVal
  | JSVal.vObj fs =>
      let fs₁ := setField fs ctx.stampKey ctx.parentPrimary
      let fs₂ := match ctx.deleteKey with
        | some dk => removeField fs₁ dk
        | none => fs₁
      Except.ok (JSVal.vObj fs₂)
  | JSVal.vNull => Except.error "TypeError: Cannot set properties of null"
  | JSVal.vUndef => Except.error "TypeError: Cannot set properties of undefined"
  | JSVal.vNum _ => Except.error "TypeError: Cannot create property on number"
  | JSVal.vStr _ => Except.error "TypeError: Cannot create property on string"
  | JSVal.vBool _ => Except.error "TypeError: Cannot create property on boolean"
  | v => Except.ok v

/-- The pre-stamp applied to the include's value:
`(_.isArray(value) ? value : [value]).forEach(obj => ...)`. -/
def stampValues (ctx : AssocCtx) : JSVal → Except String JSVal
  | JSVal.vArr elems => do
      let es ← elems.mapM (stampOne ctx)
      Except.ok (JSVal.vArr es)
  | v => stampOne ctx v

/-- Whether a value is `null`-like (`_.isNil`). -/
def isNilJS : JSVal → Bool
  | JSVal.vNull => true
  | JSVal.vUndef => true
  | _ => false

/-- The body of the `for (let include of includes)` loop of
`Query.associate` (`src/query.ts` lines 777-868) for one include, returning
the association actions it performs (`Except.error` models a thrown
`TypeError`).  In source order: an absent Sequelize association, an
unresolvable target model or an `undefined` value skips the include; a
belongs-to association whose foreign key is already set in the data skips;
on create, has-one/has-many values are foreign-key pre-stamped (which throws
on a `null` value); a missing setter skips; a `null`-like value clears the
association; otherwise each value is coerced and the `coerceSave` decision
is taken per value. -/
def associateStep (op : OpKind) (ctx : AssocCtx) (data : List (String × JSVal)) :
    Except String (List AssocAction) :=
  let value? := lookupField data ctx.asName
  if !ctx.internalAssocPresent || !ctx.assocModelPresent || value?.isNone then
    Except.ok []
  else
    let value := value?.getD JSVal.vUndef
    if ctx.assocType = AssocType.belongsTo
        && jsTruthy (jsIndex (JSVal.vObj data) ctx.identifier) then
      Except.ok []
    else do
      let stamped ←
        if op = OpKind.createOp
            && (ctx.assocType = AssocType.hasOne || ctx.assocType = AssocType.hasMany) then
          stampValues ctx value
        else Except.ok value
      if !ctx.setterPresent then
        Except.ok []
      else if isNilJS stamped then
        Except.ok [AssocAction.setNullAction]
      else
        let items := match stamped with
          | JSVal.vArr elems => elems
          | v => [v]
        Except.ok [AssocAction.setAction (items.map (fun it =>
          (it, coerceSaveDecision ctx.primaryKey ctx.associateOnly it)))]

/-- C3: a nested value is cascade-saved exactly when it is brand-new (its
primary-key field is unset — JavaScript-falsy — in the plain data), or the
include is not marked attach-only and the plain data contains at least one
key other than the primary key; otherwise it is only attached. -/
theorem c3_coerce_save_iff (pk : String) (ao : Bool) (values : JSVal) :
    coerceSaveDecision pk ao values = SaveDecision.cascadeSave ↔
      (jsTruthy (jsIndex values pk) = false
       ∨ (ao = false ∧ ∃ k ∈ jsObjKeys values, k ≠ pk)) := by
  unfold coerceSaveDecision
  dsimp only
  split
  case isTrue h =>
    simp only [true_iff]
    revert h
    simp [List.length_pos_iff_exists_mem, List.mem_filter, Bool.and_eq_true,
      Bool.not_eq_true', Bool.or_eq_true, decide_eq_true_eq, bne_iff_ne]
  case isFalse h =>
    constructor
    · intro hc
      exact absurd hc (by simp)
    · intro hr
      exfalso
      apply h
      revert hr
      simp [List.length_pos_iff_exists_mem, List.mem_filter, Bool.and_eq_true,
        Bool.not_eq_true', Bool.or_eq_true, decide_eq_true_eq, bne_iff_ne]

/-- The context of a belongs-to include `mentor` whose foreign key
`mentorId` is the nested model's linking column. -/
def c5ctx : AssocCtx :=
  { asName := "mentor", associateOnly := true, internalAssocPresent := true,
    assocModelPresent := true, assocType := AssocType.belongsTo,
    identifier := "mentorId", primaryKey := "id", setterPresent := true,
    stampKey := "actorId", deleteKey := none, parentPrimary := JSVal.vNum 1 }

/-- Input data carrying `mentor: null` together with a set foreign key
`mentorId: 5`. -/
def c5data : List (String × JSVal) := [("mentor", JSVal.vNull), ("mentorId", JSVal.vNum 5)]

/-- C5 counterexample: the claim says a `null` value always invokes the
association setter with a null target.  With `mentor: null` but the
belongs-to foreign key `mentorId: 5` set in the data, the belongs-to
short-circuit (line 799) skips the include entirely, so no setter call is
made — the step performs no action instead of the claimed null-set. -/
theorem c5_null_belongs_to_short_circuit :
    associateStep OpKind.updateOp c5ctx c5data = Except.ok []
    ∧ lookupField c5data "mentor" = some JSVal.vNull
    ∧ (Except.ok ([] : List AssocAction) : Except String (List AssocAction))
        ≠ Except.ok [AssocAction.setNullAction] := by
  refine ⟨rfl, rfl, ?_⟩
  simp

/-- C5 as amended: an `undefined` value always skips the association
untouched; a `null` value invokes the setter with a null target and
processing continues, provided the association and target model resolve, the
setter exists, the include is not a belongs-to whose foreign key is set in
the data (which skips without any setter call), and the operation is not a
create of a has-one/has-many association (whose foreign-key pre-stamp throws
a `TypeError` on the `null` value). -/
theorem c5_undefined_skips_null_clears (op : OpKind) (ctx : AssocCtx)
    (data : List (String × JSVal)) :
    (lookupField data ctx.asName = none → associateStep op ctx data = Except.ok [])
    ∧ (lookupField data ctx.asName = some JSVal.vNull →
        ctx.internalAssocPresent = true →
        ctx.assocModelPresent = true →
        ctx.setterPresent = true →
        ¬(ctx.assocType = AssocType.belongsTo
            ∧ jsTruthy (jsIndex (JSVal.vObj data) ctx.identifier) = true) →
        ¬(op = OpKind.createOp
            ∧ (ctx.assocType = AssocType.hasOne ∨ ctx.assocType = AssocType.hasMany)) →
        associateStep op ctx data = Except.ok [AssocAction.setNullAction]) := by
  obtain ⟨asN, ao, iap, amp, at_, idf, pk, sp, sk, dk, pp⟩ := ctx
  constructor
  · intro h
    simp [associateStep, h]
  · intro hval h1 h2 h3 hbt hcr
    subst h1 h2 h3
    cases op <;> cases at_ <;>
      simp_all [associateStep, stampValues, stampOne, isNilJS, Bind.bind, Except.bind,
        pure, Except.pure]

/-- The context of a belongs-to-many include `tags` used to witness the
amended C5. -/
def c5wctx : AssocCtx :=
  { asName := "tags", associateOnly := true, internalAssocPresent := true,
    assocModelPresent := true, assocType := AssocType.belongsToMany,
    identifier := "tagId", primaryKey := "id", setterPresent := true,
    stampKey := "actorId", deleteKey := none, parentPrimary := JSVal.vNum 1 }

/-- C5 witness: the amended theorem applied at concrete inputs — a data
object never supplying `tags` is skipped, and `tags: null` on an update
clears the association. -/
theorem c5_undefined_skips_null_clears_witness :
    associateStep OpKind.updateOp c5wctx [("other", JSVal.vNum 1)] = Except.ok []
    ∧ associateStep OpKind.updateOp c5wctx [("tags", JSVal.vNull)]
        = Except.ok [AssocAction.setNullAction] := by
  refine ⟨(c5_undefined_skips_null_clears OpKind.updateOp c5wctx [("other", JSVal.vNum 1)]).1
      rfl, ?_⟩
  exact (c5_undefined_skips_null_clears OpKind.updateOp c5wctx [("tags", JSVal.vNull)]).2
    rfl rfl rfl rfl (by decide) (by decide)

/-- `Query.save` (`src/query.ts` lines 892-934), abstracted over the storage
backend: `runUpdate` is the delegated `update` call (returning the matched
row count and the re-read instances) given the `wheres` of the query it runs
on, and `runCreate` the delegated `create` call.  `save` reads the
instance's primary-key value; if it is truthy it updates through a query
extended with the primary-key equality filter and returns `null` (`none`)
when fewer than one row matched or was re-read, else the first re-read
instance; otherwise it creates.  The validation run on the success path does
not affect the returned value and is not modelled. -/
def saveStep (pk : String) (inst : List (String × JSVal))
    (baseWheres : List WhereRepr)
    (runUpdate : List WhereRepr → Int × List JSVal)
    (runCreate : Unit → JSVal) : Option JSVal :=
  let primaryValue := (lookupField inst pk).getD JSVal.vUndef
  if jsTruthy primaryValue then
    let r := runUpdate (baseWheres ++ [[(pk, primaryValue)]])
    if r.1 < 1 || r.2.length < 1 then none
    else r.2.head?
  else some (runCreate ())

/-- C6: `save` inspects the primary key; when set it delegates to `update`
on the query extended with the primary-key equality filter (which is exactly
what `primary.eq(primaryValue)` compiles to) and returns `null` when the
update matched zero rows; when unset it delegates to `create` and returns
its result. -/
theorem c6_save_branches (pk : String) (inst : List (String × JSVal))
    (baseWheres : List WhereRepr) (runUpdate : List WhereRepr → Int × List JSVal)
    (runCreate : Unit → JSVal) :
    (jsTruthy ((lookupField inst pk).getD JSVal.vUndef) = true →
      QueryableE.eq (QueryableE.attrQ pk)
          (Operand.constV ((lookupField inst pk).getD JSVal.vUndef))
        = Except.ok [(pk, (lookupField inst pk).getD JSVal.vUndef)]
      ∧ ((runUpdate (baseWheres ++ [[(pk, (lookupField inst pk).getD JSVal.vUndef)]])).1 ≤ 0 →
          saveStep pk inst baseWheres runUpdate runCreate = none)
      ∧ (1 ≤ (runUpdate (baseWheres ++ [[(pk, (lookupField inst pk).getD JSVal.vUndef)]])).1 →
         1 ≤ (runUpdate (baseWheres ++ [[(pk, (lookupField inst pk).getD JSVal.vUndef)]])).2.length →
          saveStep pk inst baseWheres runUpdate runCreate
            = (runUpdate (baseWheres ++ [[(pk, (lookupField inst pk).getD JSVal.vUndef)]])).2.head?))
    ∧ (jsTruthy ((lookupField inst pk).getD JSVal.vUndef) = false →
        saveStep pk inst baseWheres runUpdate runCreate = some (runCreate ())) := by
  constructor
  · intro htruthy
    refine ⟨rfl, ?_, ?_⟩
    · intro hz
      simp [saveStep, htruthy]
      omega
    · intro h1 h2
      have hcond : (decide ((runUpdate
            (baseWheres ++ [[(pk, (lookupField inst pk).getD JSVal.vUndef)]])).1 < 1)
          || decide ((runUpdate
            (baseWheres ++ [[(pk, (lookupField inst pk).getD JSVal.vUndef)]])).2.length < 1))
          = false := by
        simp only [Bool.or_eq_false_iff, decide_eq_false_iff_not, not_lt]
        exact ⟨h1, h2⟩
      simp [saveStep, htruthy, hcond]
  · intro hfalse
    simp [saveStep, hfalse]

/-- C6 witness: a stale primary key (`id: 1`) whose update matches zero rows
returns `null`, and an instance without a primary key creates. -/
theorem c6_save_branches_witness :
    saveStep "id" [("id", JSVal.vNum 1)] [] (fun _ => (0, [])) (fun _ => JSVal.vNull) = none
    ∧ saveStep "id" [("name", JSVal.vStr "Gary")] [] (fun _ => (0, []))
        (fun _ => JSVal.vStr "created") = some (JSVal.vStr "created") := by
  constructor
  · exact ((c6_save_branches "id" [("id", JSVal.vNum 1)] [] (fun _ => (0, []))
      (fun _ => JSVal.vNull)).1 (by decide)).2.1 (by decide)
  · exact (c6_save_branches "id" [("name", JSVal.vStr "Gary")] [] (fun _ => (0, []))
      (fun _ => JSVal.vStr "created")).2 (by decide)

/-- C10: an `include` call for an alias with no pre-existing spec and no
explicit `associateOnly` override appends a single spec with
`associateOnly = true`; consequently a nested value whose primary key is set
is only attached (never cascade-saved) under that include. -/
theorem c10_include_defaults_attach_only
    (fuel : Nat) (includes : List IncludeSpec) (modelName assocKey : String)
    (aliasOverride : Option String) (extra : ExtraInclude)
    (h1 : includes.findIdx? (fun inc => inc.asName == (aliasOverride.getD assocKey)) = none)
    (h2 : extra.associateOnly = none) :
    (∃ spec : IncludeSpec,
        includeStep fuel includes modelName assocKey aliasOverride extra none
          = Except.ok (includes ++ [spec])
        ∧ spec.associateOnly = some true)
    ∧ ∀ pk values, jsTruthy (jsIndex values pk) = true →
        coerceSaveDecision pk true values = SaveDecision.attachOnly := by
  constructor
  · refine ⟨{ modelName := extra.modelName.getD modelName,
              asName := extra.asName.getD (aliasOverride.getD assocKey),
              query := none, required := extra.required, associateOnly := some true },
      ?_, rfl⟩
    cases aliasOverride with
    | none =>
        simp only [Option.getD] at h1
        simp [includeStep, h1, h2, Bind.bind, Except.bind, Option.orElse, Option.getD]
    | some a =>
        simp only [Option.getD] at h1
        simp [includeStep, h1, h2, Bind.bind, Except.bind, Option.orElse, Option.getD]
  · intro pk values h
    simp [coerceSaveDecision, h]

/-- C10 witness: a fresh `mentor` include on an empty include list, and the
attach-only decision for a nested value with a set primary key. -/
theorem c10_include_defaults_attach_only_witness :
    (∃ spec : IncludeSpec,
        includeStep 1 [] "Actor" "mentor" none {} none = Except.ok ([] ++ [spec])
        ∧ spec.associateOnly = some true)
    ∧ coerceSaveDecision "id" true (JSVal.vObj [("id", JSVal.vNum 7)])
        = SaveDecision.attachOnly := by
  have h := c10_include_defaults_attach_only 1 [] "Actor" "mentor" none {} rfl rfl
  exact ⟨h.1, h.2 "id" (JSVal.vObj [("id", JSVal.vNum 7)]) (by decide)⟩

/-- Left-cancellation of string append, used for prefixed error keys. -/
theorem strAppendCancel (p a b : String) (h : p ++ a = p ++ b) : a = b := by
  have hd := congrArg String.data h
  simp only [String.data_append] at hd
  exact String.ext (List.append_cancel_left hd)

/-- Looking up the key just written by `setField` yields the new value. -/
theorem lookupField_setField_self {α : Type} (l : List (String × α)) (k : String) (v : α) :
    lookupField (setField l k v) k = some v := by
  induction l with
  | nil => simp [setField, lookupField]
  | cons hd tl ih =>
      obtain ⟨k₀, v₀⟩ := hd
      by_cases h : k₀ = k
      · simp [setField, h, lookupField]
      · simp [setField, h, lookupField, ih]

/-- `setField` leaves every other key's lookup unchanged. -/
theorem lookupField_setField_ne {α : Type} (l : List (String × α)) (k k' : String) (v : α)
    (h : k' ≠ k) :
    lookupField (setField l k v) k' = lookupField l k' := by
  induction l with
  | nil => simp [setField, lookupField, Ne.symm h]
  | cons hd tl ih =>
      obtain ⟨k₀, v₀⟩ := hd
      by_cases h₀ : k₀ = k
      · subst h₀
        simp [setField, lookupField, Ne.symm h]
      · by_cases h₁ : k₀ = k'
        · subst h₁
          simp [setField, h, lookupField]
        · simp [setField, h₀, lookupField, h₁, ih]

/-- One violation of a Sequelize `ValidationError`: its attribute path, its
violation type string the `switch` dispatches on, and its message. -/
structure VioItem where
  path : String
  vtype : String
  message : String

/-- `err.get(key)`: every violation whose path is `key`. -/
def errGet (items : List VioItem) (key : String) : List VioItem :=
  items.filter (fun it => it.path == key)

/-- JavaScript `toLowerCase()` on a violation type string, character by
character. -/
def strLower (s : String) : String :=
  String.mk (s.data.map Char.toLower)

/-- The `switch (item.type.toLowerCase())` of `coerceValidationError`
(`src/query.ts` lines 121-139): not-null, unique and string violations map
to the domain codes; the switch has no default case, so every other
violation type makes the arrow function return `undefined` (`none`) — the
violation is dropped, not passed through. -/
def mapViolation (it : VioItem) : Option (String × String) :=
  let t := strLower it.vtype
  if t = "notnull violation" then some ("attribute.required", "Required")
  else if t = "unique violation" then some ("attribute.unique", "Not unique")
  else if t = "string violation" then some ("attribute.string", "Not a string")
  else none

/-- The coerced error maps built by `coerceValidationError`: `entries` is
the `errors` object (pre-seeded attribute and association keys plus the
attribute violations) and `constraints` the `errors['$constraints']` bucket
created on demand for paths that are not declared attribute keys (an empty
list models the never-created bucket). -/
structure CoercedErrors where
  entries : List (String × List (Option (String × String)))
  constraints : List (String × List (Option (String × String)))

/-- One iteration of the `err.errors.map(e => e.path).forEach(key => ...)`
loop: the violations for the path are mapped through the `switch` and
assigned under the (possibly prefixed) key, either in the main `errors`
object (declared attribute path) or in the `$constraints` bucket. -/
def cveStep (attrKeys : List String) (items : List VioItem) (pfx : String → String)
    (acc : CoercedErrors) (key : String) : CoercedErrors :=
  let mapped := (errGet items key).map mapViolation
  if attrKeys.contains key then
    { acc with entries := setField acc.entries (pfx key) mapped }
  else
    { acc with constraints := setField acc.constraints (pfx key) mapped }

/-- `coerceValidationError` (`src/query.ts` lines 96-148): every declared
attribute and association key is pre-seeded (prefixed) with an empty list,
then each violation path is processed by `cveStep`.  The optional prefix
models the include alias argument passed from a nested association save. -/
def coerceValidationError (attrKeys assocKeys : List String) (items : List VioItem)
    (pfx? : Option String) : CoercedErrors :=
  let pfx := fun k => match pfx? with
    | some p => p ++ "." ++ k
    | none => k
  let preset := (attrKeys ++ assocKeys).foldl (fun acc k => setField acc (pfx k) []) []
  (items.map VioItem.path).foldl (cveStep attrKeys items pfx)
    { entries := preset, constraints := [] }

/-- Folding `cveStep` over paths not containing `key` leaves `key`'s
prefixed lookups unchanged (the prefix map is injective). -/
theorem cveFold_stable (attrKeys : List String) (items : List VioItem) (pfx : String → String)
    (hinj : ∀ a b, pfx a = pfx b → a = b) (keys : List String) (key : String)
    (hk : key ∉ keys) (acc : CoercedErrors) :
    lookupField (keys.foldl (cveStep attrKeys items pfx) acc).entries (pfx key)
      = lookupField acc.entries (pfx key)
    ∧ lookupField (keys.foldl (cveStep attrKeys items pfx) acc).constraints (pfx key)
      = lookupField acc.constraints (pfx key) := by
  induction keys generalizing acc with
  | nil => exact ⟨rfl, rfl⟩
  | cons k rest ih =>
      have hne : key ≠ k := by
        intro h
        exact hk (h ▸ List.mem_cons_self k rest)
      have hpfx : pfx key ≠ pfx k := fun h => hne (hinj _ _ h)
      have hrest : key ∉ rest := fun h => hk (List.mem_cons_of_mem _ h)
      simp only [List.foldl_cons]
      have hstep := ih hrest (cveStep attrKeys items pfx acc k)
      constructor
      · rw [hstep.1]
        by_cases hc : attrKeys.contains k
        · have hm : k ∈ attrKeys := by simpa using hc
          have he : (cveStep attrKeys items pfx acc k).entries
              = setField acc.entries (pfx k) ((errGet items k).map mapViolation) := by
            simp [cveStep, hm]
          rw [he]
          exact lookupField_setField_ne _ _ _ _ hpfx
        · have hm : k ∉ attrKeys := by simpa using hc
          have he : (cveStep attrKeys items pfx acc k).entries = acc.entries := by
            simp [cveStep, hm]
          rw [he]
      · rw [hstep.2]
        by_cases hc : attrKeys.contains k
        · have hm : k ∈ attrKeys := by simpa using hc
          have he : (cveStep attrKeys items pfx acc k).constraints = acc.constraints := by
            simp [cveStep, hm]
          rw [he]
        · have hm : k ∉ attrKeys := by simpa using hc
          have he : (cveStep attrKeys items pfx acc k).constraints
              = setField acc.constraints (pfx k) ((errGet items k).map mapViolation) := by
            simp [cveStep, hm]
          rw [he]
          exact lookupField_setField_ne _ _ _ _ hpfx

/-- Folding `cveStep` over paths containing `key` assigns `key`'s mapped
violations under its prefixed key, in `entries` for a declared attribute
path and in `constraints` otherwise. -/
theorem cveFold_mem (attrKeys : List String) (items : List VioItem) (pfx : String → String)
    (hinj : ∀ a b, pfx a = pfx b → a = b) (keys : List String) (key : String)
    (hk : key ∈ keys) (acc : CoercedErrors) :
    (attrKeys.contains key = true →
      lookupField (keys.foldl (cveStep attrKeys items pfx) acc).entries (pfx key)
        = some ((errGet items key).map mapViolation))
    ∧ (attrKeys.contains key = false →
      lookupField (keys.foldl (cveStep attrKeys items pfx) acc).constraints (pfx key)
        = some ((errGet items key).map mapViolation)) := by
  induction keys generalizing acc with
  | nil => cases hk
  | cons k rest ih =>
      by_cases hr : key ∈ rest
      · simpa only [List.foldl_cons] using ih hr (cveStep attrKeys items pfx acc k)
      · have hkk : key = k := by
          rcases List.mem_cons.mp hk with h | h
          · exact h
          · exact absurd h hr
        subst hkk
        simp only [List.foldl_cons]
        have hstab := cveFold_stable attrKeys items pfx hinj rest key hr
          (cveStep attrKeys items pfx acc key)
        constructor
        · intro hc
          rw [hstab.1]
          have hm : key ∈ attrKeys := by simpa using hc
          have he : (cveStep attrKeys items pfx acc key).entries
              = setField acc.entries (pfx key) ((errGet items key).map mapViolation) := by
            simp [cveStep, hm]
          rw [he]
          exact lookupField_setField_self _ _ _
        · intro hc
          rw [hstab.2]
          have hm : key ∉ attrKeys := by simpa using hc
          have he : (cveStep attrKeys items pfx acc key).constraints
              = setField acc.constraints (pfx key) ((errGet items key).map mapViolation) := by
            simp [cveStep, hm]
          rw [he]
          exact lookupField_setField_self _ _ _

/-- C4 counterexample: the claim says violation types other than not-null,
unique and string are passed through.  A `len Violation` on the declared
attribute `email` is instead mapped to `undefined` (`none`) — the switch has
no default case — so the emitted list is `[undefined]`, not a passed-through
violation item. -/
theorem c4_other_violation_types_dropped :
    lookupField (coerceValidationError ["email"] []
        [{ path := "email", vtype := "len Violation", message := "too long" }] none).entries
        "email"
      = some [none]
    ∧ (some [(none : Option (String × String))]
        ≠ some [some (("len Violation", "too long") : String × String)]) := by
  refine ⟨rfl, ?_⟩
  simp

/-- C4 as amended: each violation whose path is a declared attribute key is
assigned under that (prefixed) key with not-null, unique and string
violations mapped to `attribute.required` / `attribute.unique` /
`attribute.string` and every other violation type mapped to an `undefined`
entry (dropped, not passed through); every violation whose path is not a
declared attribute key is bucketed in the separate `$constraints` map; and a
supplied prefix `k` is prepended as `k.` to every emitted key. -/
theorem c4_error_coercion (attrKeys assocKeys : List String) (items : List VioItem)
    (p key : String) (hk : key ∈ items.map VioItem.path) :
    (attrKeys.contains key = true →
      lookupField (coerceValidationError attrKeys assocKeys items (some p)).entries
          (p ++ "." ++ key)
        = some ((errGet items key).map mapViolation))
    ∧ (attrKeys.contains key = false →
      lookupField (coerceValidationError attrKeys assocKeys items (some p)).constraints
          (p ++ "." ++ key)
        = some ((errGet items key).map mapViolation))
    ∧ (∀ it : VioItem, strLower it.vtype = "notnull violation" →
        mapViolation it = some ("attribute.required", "Required"))
    ∧ (∀ it : VioItem, strLower it.vtype = "unique violation" →
        mapViolation it = some ("attribute.unique", "Not unique"))
    ∧ (∀ it : VioItem, strLower it.vtype = "string violation" →
        mapViolation it = some ("attribute.string", "Not a string"))
    ∧ (∀ it : VioItem, strLower it.vtype ≠ "notnull violation" →
        strLower it.vtype ≠ "unique violation" → strLower it.vtype ≠ "string violation" →
        mapViolation it = none) := by
  have hinj : ∀ a b : String, p ++ "." ++ a = p ++ "." ++ b → a = b := fun a b h =>
    strAppendCancel (p ++ ".") a b h
  have hmain := cveFold_mem attrKeys items (fun k => p ++ "." ++ k) hinj
    (items.map VioItem.path) key hk
    { entries := (attrKeys ++ assocKeys).foldl
        (fun acc k => setField acc (p ++ "." ++ k) []) [],
      constraints := [] }
  refine ⟨hmain.1, hmain.2, ?_, ?_, ?_, ?_⟩
  · intro it h
    simp [mapViolation, h]
  · intro it h
    simp [mapViolation, h]
  · intro it h
    simp [mapViolation, h]
  · intro it h1 h2 h3
    simp [mapViolation, h1, h2, h3]

/-- C4 witness: a not-null violation on the declared attribute `email`,
coerced during a nested save under include alias `mentor`, surfaces keyed
`mentor.email` as `attribute.required`. -/
theorem c4_error_coercion_witness :
    lookupField (coerceValidationError ["email"] ["mentor"]
        [{ path := "email", vtype := "notNull Violation", message := "cannot be null" }]
        (some "mentor")).entries "mentor.email"
      = some [some ("attribute.required", "Required")] := by
  have h := (c4_error_coercion ["email"] ["mentor"]
    [{ path := "email", vtype := "notNull Violation", message := "cannot be null" }]
    "mentor" "email" (by simp)).1 (by decide)
  exact h

/-- The allocation store of query descriptors: each `Query` object's options
record occupies one cell, and a query is identified by its cell index.
Every builder method of the source reads the receiver's options (object
spread and `Array.concat`, both non-mutating), builds a fresh options
record, and returns `new Query(this.db, this.model, options)` — modelled as
allocating a new cell.  Mutation of the receiver would be a write to an
existing cell; no operation performs one. -/
abbrev Store := List QueryOptions

/-- Allocate a new query descriptor, returning the new store and the new
query's index. -/
def alloc (s : Store) (o : QueryOptions) : Store × Nat :=
  (s ++ [o], s.length)

/-- Read a query's options record. -/
def getQO (s : Store) (i : Nat) : QueryOptions :=
  (s.get? i).getD emptyQueryOptions

/-- `Query.where` (lines 330-334): append the mapped `Where` to `wheres` in
a fresh descriptor. -/
def whereStore (s : Store) (i : Nat) (w : WhereRepr) : Store × Nat :=
  let o := getQO s i
  alloc s (QueryOptions.mk (o.wheres ++ [w]) o.attrs o.includes o.orderings o.groupBys
    o.skipped o.taken)

/-- `Query.attributes`: concatenate the mapped attribute selections onto
`attrs || []`. -/
def attributesStore (s : Store) (i : Nat) (newAttrs : List AttrSpec) : Store × Nat :=
  let o := getQO s i
  alloc s (QueryOptions.mk o.wheres (some (o.attrs.getD [] ++ newAttrs)) o.includes
    o.orderings o.groupBys o.skipped o.taken)

/-- `Query.order`: concatenate the mapped orderings onto `orderings || []`. -/
def orderStore (s : Store) (i : Nat) (newOrds : List OrderingSpec) : Store × Nat :=
  let o := getQO s i
  alloc s (QueryOptions.mk o.wheres o.attrs o.includes
    (some (o.orderings.getD [] ++ newOrds)) o.groupBys o.skipped o.taken)

/-- `Query.groupBy`: concatenate the mapped groupings onto `groupBys || []`. -/
def groupByStore (s : Store) (i : Nat) (newGroups : List QueryableE) : Store × Nat :=
  let o := getQO s i
  alloc s (QueryOptions.mk o.wheres o.attrs o.includes o.orderings
    (some (o.groupBys.getD [] ++ newGroups)) o.skipped o.taken)

/-- `Query.skip` (lines 469-473): add to the accumulated offset. -/
def skipStore (s : Store) (i : Nat) (num : Int) : Store × Nat :=
  let o := getQO s i
  alloc s (QueryOptions.mk o.wheres o.attrs o.includes o.orderings o.groupBys
    (o.skipped + num) o.taken)

/-- `Query.take`: add to the accumulated limit. -/
def takeStore (s : Store) (i : Nat) (num : Int) : Store × Nat :=
  let o := getQO s i
  alloc s (QueryOptions.mk o.wheres o.attrs o.includes o.orderings o.groupBys
    o.skipped (o.taken + num))

/-- `Query.include` as a store operation: the new include list is computed
by `includeStep` from `includes || []`, and the fresh descriptor is
allocated; a `TypeError` thrown by the nested-query merge propagates before
any `Query` is constructed. -/
def includeStore (fuel : Nat) (s : Store) (i : Nat) (modelName assocKey : String)
    (aliasOverride : Option String) (extra : ExtraInclude)
    (newQuery : Option QueryOptions) : Except String (Store × Nat) := do
  let o := getQO s i
  let newIncludes ← includeStep fuel (o.includes.getD []) modelName assocKey
    aliasOverride extra newQuery
  Except.ok (alloc s (QueryOptions.mk o.wheres o.attrs (some newIncludes) o.orderings
    o.groupBys o.skipped o.taken))

/-- One declared association iterated by `includeAll`: its key, its (lazily
resolved) target model name and the metadata alias override. -/
structure AssocEntry where
  key : String
  targetModelName : String
  aliasOverride : Option String

/-- `Query.includeAll` (lines 417-433): fold `include` over every declared
association with the shared extra options and no sub-query callback. -/
def includeAllStore (fuel : Nat) (s : Store) (i : Nat) (assocs : List AssocEntry)
    (extra : ExtraInclude) : Except String (Store × Nat) :=
  assocs.foldlM (fun (acc : Store × Nat) e =>
    includeStore fuel acc.1 acc.2 e.targetModelName e.key e.aliasOverride extra none) (s, i)

/-- `Query.merge` as a store operation: read both descriptors, merge, and
allocate the merged descriptor on success. -/
def mergeStore (fuel : Nat) (s : Store) (i j : Nat) : Except String (Store × Nat) := do
  let o ← mergeQueryOptions fuel (getQO s i) (getQO s j)
  Except.ok (alloc s o)

/-- Appending to a list leaves every existing index's lookup unchanged. -/
theorem get?_append_lt {α : Type} (s t : List α) (i : Nat) (h : i < s.length) :
    (s ++ t).get? i = s.get? i := by
  induction s generalizing i with
  | nil => cases h
  | cons hd tl ih =>
      cases i with
      | zero => rfl
      | succ n => exact ih n (Nat.lt_of_succ_lt_succ h)

/-- A successful `include` only appends one cell to the store. -/
theorem includeStore_shape (fuel : Nat) (s : Store) (i : Nat) (modelName assocKey : String)
    (aliasOverride : Option String) (extra : ExtraInclude) (newQuery : Option QueryOptions)
    (s' : Store) (j : Nat)
    (h : includeStore fuel s i modelName assocKey aliasOverride extra newQuery
        = Except.ok (s', j)) :
    ∃ o, s' = s ++ [o] := by
  unfold includeStore at h
  dsimp only at h
  cases hstep : includeStep fuel ((getQO s i).includes.getD []) modelName assocKey
      aliasOverride extra newQuery with
  | error e =>
      rw [hstep] at h
      exact Except.noConfusion h
  | ok newIncludes =>
      rw [hstep] at h
      simp only [Bind.bind, Except.bind, alloc, Except.ok.injEq, Prod.mk.injEq] at h
      exact ⟨_, h.1.symm⟩

/-- A successful `includeAll` only appends cells to the store. -/
theorem includeAllStore_shape (fuel : Nat) (assocs : List AssocEntry) (extra : ExtraInclude) :
    ∀ (s : Store) (i : Nat) (s' : Store) (j : Nat),
      includeAllStore fuel s i assocs extra = Except.ok (s', j) → ∃ t, s' = s ++ t := by
  induction assocs with
  | nil =>
      intro s i s' j h
      simp only [includeAllStore, List.foldlM, pure, Except.pure, Except.ok.injEq,
        Prod.mk.injEq] at h
      exact ⟨[], by rw [← h.1]; simp⟩
  | cons e rest ih =>
      intro s i s' j h
      simp only [includeAllStore, List.foldlM] at h
      cases hstep : includeStore fuel s i e.targetModelName e.key e.aliasOverride extra none with
      | error msg =>
          rw [hstep] at h
          simp only [Bind.bind, Except.bind] at h
          exact Except.noConfusion h
      | ok acc₁ =>
          rw [hstep] at h
          simp only [Bind.bind, Except.bind] at h
          obtain ⟨o, ho⟩ := includeStore_shape fuel s i e.targetModelName e.key
            e.aliasOverride extra none acc₁.1 acc₁.2 (by rw [hstep])
          obtain ⟨t, ht⟩ := ih acc₁.1 acc₁.2 s' j h
          exact ⟨[o] ++ t, by rw [ht, ho, List.append_assoc]⟩

/-- C9: every builder operation — `where`, `attributes`, `include`,
`includeAll`, `order`, `groupBy`, `skip`, `take`, `merge` — returns a new
descriptor and never mutates the receiver: after any of them, the
receiver's cell is unchanged, and in particular `compileFindOptions`
evaluated on the receiver itself is identical before and after the call. -/
theorem c9_builder_methods_pure (s : Store) (i : Nat) (h : i < s.length)
    (w : WhereRepr) (ats : List AttrSpec) (ors : List OrderingSpec)
    (gbs : List QueryableE) (n m : Int) (fuel : Nat) (modelName assocKey : String)
    (aliasOverride : Option String) (extra : ExtraInclude)
    (newQuery : Option QueryOptions) (assocs : List AssocEntry) (k : Nat) :
    ((whereStore s i w).1.get? i = s.get? i)
    ∧ ((attributesStore s i ats).1.get? i = s.get? i)
    ∧ ((orderStore s i ors).1.get? i = s.get? i)
    ∧ ((groupByStore s i gbs).1.get? i = s.get? i)
    ∧ ((skipStore s i n).1.get? i = s.get? i)
    ∧ ((takeStore s i m).1.get? i = s.get? i)
    ∧ (∀ s' j, includeStore fuel s i modelName assocKey aliasOverride extra newQuery
          = Except.ok (s', j) → s'.get? i = s.get? i)
    ∧ (∀ s' j, includeAllStore fuel s i assocs extra = Except.ok (s', j) →
          s'.get? i = s.get? i)
    ∧ (∀ s' j, mergeStore fuel s i k = Except.ok (s', j) → s'.get? i = s.get? i)
    ∧ (∀ fuel2, compileFindOptionsF fuel2 (getQO (whereStore s i w).1 i)
          = compileFindOptionsF fuel2 (getQO s i)) := by
  have hw : (whereStore s i w).1.get? i = s.get? i := get?_append_lt s _ i h
  refine ⟨hw, get?_append_lt s _ i h, get?_append_lt s _ i h, get?_append_lt s _ i h,
    get?_append_lt s _ i h, get?_append_lt s _ i h, ?_, ?_, ?_, ?_⟩
  · intro s' j hok
    obtain ⟨o, ho⟩ := includeStore_shape fuel s i modelName assocKey aliasOverride extra
      newQuery s' j hok
    rw [ho]
    exact get?_append_lt s _ i h
  · intro s' j hok
    obtain ⟨t, ht⟩ := includeAllStore_shape fuel assocs extra s i s' j hok
    rw [ht]
    exact get?_append_lt s _ i h
  · intro s' j hok
    unfold mergeStore at hok
    cases hm : mergeQueryOptions fuel (getQO s i) (getQO s k) with
    | error e =>
        rw [hm] at hok
        exact Except.noConfusion hok
    | ok o =>
        rw [hm] at hok
        simp only [Bind.bind, Except.bind, alloc, Except.ok.injEq, Prod.mk.injEq] at hok
        rw [← hok.1]
        exact get?_append_lt s _ i h
  · intro fuel2
    rw [show getQO (whereStore s i w).1 i = getQO s i from by rw [getQO, hw, getQO]]

/-- C9 witness: a store holding one fresh query; `skip 3` on it leaves its
cell intact and `compileFindOptions` on the receiver unchanged. -/
theorem c9_builder_methods_pure_witness :
    (skipStore [emptyQueryOptions] 0 3).1.get? 0 = some emptyQueryOptions
    ∧ compileFindOptionsF 1 (getQO (whereStore [emptyQueryOptions] 0 [("age", JSVal.vNum 40)]).1 0)
        = compileFindOptionsF 1 (getQO [emptyQueryOptions] 0) := by
  have h := c9_builder_methods_pure [emptyQueryOptions] 0 (by decide)
    [("age", JSVal.vNum 40)] [] [] [] 3 3 1 "Actor" "mentor" none {} none [] 0
  exact ⟨h.2.2.2.2.1.trans rfl, h.2.2.2.2.2.2.2.2.2 1⟩
